import Mathlib

/-!
# The health display component `App` (k8-proj/frontend/src/App.jsx)

A shallow embedding of the React component `App`:

* the JavaScript values that can reach the component (`JsVal`),
* the promise chain `fetch(..).then(..).then(..).catch(..)` with explicit
  state passing (`then_`, `catch_`, `healthChain`),
* the two hooks the component uses (`useState`, `useEffect`) over an
  explicit hook cell record (`Hooks`),
* the JSX tree the component returns (`view`),
* the life cycle of one mounted instance as a step function over events
  (`step`, `run`).

What the platform does (the network, `Response.json`, React's scheduling)
is input of the model: the outcome of the request is carried by the
`settle` event, and the order of renders and effect flushes by the event
trace.
-/

namespace HealthApp

/-! ## JavaScript values -/

/-- JavaScript values. A number is carried by the bit pattern of its IEEE-754
double; the component never computes with numbers. An object is carried by
its own properties, the first binding of a key being the one that counts. -/
inductive JsVal where
  | undefined
  | null
  | bool (b : Bool)
  | num (bits : Nat)
  | str (s : String)
  | arr (items : List JsVal)
  | obj (fields : List (String × JsVal))

/-- Exceptions and rejection reasons. -/
inductive JsError where
  | typeError
  | syntaxError
  | other (name : String)
  deriving DecidableEq, Repr

/-- Whether a value is a JavaScript string (`typeof v === "string"`). -/
def JsVal.isString : JsVal → Bool
  | .str _ => true
  | _ => false

/-- Whether a value is `null` or `undefined`, the two values on which a
property access throws. -/
def JsVal.isNullish : JsVal → Bool
  | .undefined => true
  | .null => true
  | _ => false

/-- The expression `data.status`. On `null` and `undefined` the access throws a
`TypeError`. On an object it is the own property `status` when there is one;
no prototype of a plain object, array, string, number or boolean defines
`status`, so every other access yields `undefined`. -/
def statusOf (data : JsVal) : Except JsError JsVal :=
  match data with
  | .undefined => .error .typeError
  | .null => .error .typeError
  | .obj fields =>
    match fields.lookup "status" with
    | some v => .ok v
    | none => .ok .undefined
  | _ => .ok .undefined

/-! ## Requests and responses -/

/-- A call `fetch(url, options)`; `options` is `none` when the call has one
argument. -/
structure Request where
  url : String
  options : Option (List (String × JsVal))

/-- The HTTP method of a request: `GET` unless the options name another. -/
def Request.method (r : Request) : JsVal :=
  match r.options with
  | none => .str "GET"
  | some o => (o.lookup "method").getD (.str "GET")

/-- A response as the component can observe it: the HTTP status code and the
settlement of `res.json()` (the parsed body, or the rejection reason when the
body is not JSON). -/
structure Response where
  status : Nat
  json : Except JsError JsVal

/-- The getter `res.ok`: the status code is in the range 200 to 299. -/
def Response.ok (res : Response) : Bool :=
  200 ≤ res.status && res.status ≤ 299

/-- The settlement of the promise returned by `fetch`: it rejects on a network
failure and resolves with the response otherwise, whatever the status code. -/
abbrev FetchResult := Except JsError Response

/-! ## The rendered tree -/

/-- The tree a render returns: literal text, an embedded expression `{e}`
holding the value of `e`, or an element with its inline style and children. -/
inductive Node where
  | text (s : String)
  | expr (v : JsVal)
  | elem (tag : String) (style : List (String × String)) (children : List Node)

/-- The JSX returned by `App` for a given value of `status`. -/
def view (status : JsVal) : Node :=
  .elem "div" [("padding", "40px"), ("fontFamily", "Arial")]
    [ .elem "h1" [] [.text "React Frontend"],
      .elem "p" [] [.text "Backend Health: ", .elem "b" [] [.expr status]] ]

mutual
/-- The values of the embedded expressions of a tree, in document order. -/
def Node.slots : Node → List JsVal
  | .text _ => []
  | .expr v => [v]
  | .elem _ _ cs => slotsList cs
/-- The embedded expressions of a list of children. -/
def slotsList : List Node → List JsVal
  | [] => []
  | c :: cs => c.slots ++ slotsList cs
end

mutual
/-- The tree with the value of every embedded expression replaced by `v`. -/
def Node.fill (v : JsVal) : Node → Node
  | .text s => .text s
  | .expr _ => .expr v
  | .elem t st cs => .elem t st (fillList v cs)
/-- The function `Node.fill` over a list of children. -/
def fillList (v : JsVal) : List Node → List Node
  | [] => []
  | c :: cs => c.fill v :: fillList v cs
end

/-! ## Hooks -/

/-- The dependency list of an effect: `none` when `useEffect` is called without
a second argument. -/
abbrev Deps := Option (List JsVal)

/-- The comparison `Object.is` on the values a dependency list can hold
unchanged between two renders: primitives compare by value, and an array or
object built during a render is never the one built during the previous
render. -/
def sameValue : JsVal → JsVal → Bool
  | .undefined, .undefined => true
  | .null, .null => true
  | .bool a, .bool b => a == b
  | .num a, .num b => a == b
  | .str a, .str b => a == b
  | _, _ => false

/-- React's comparison of two dependency lists: equal when every pair of
entries at the same index is the same value. -/
def areHookInputsEqual : List JsVal → List JsVal → Bool
  | a :: as, b :: bs => sameValue a b && areHookInputsEqual as bs
  | _, _ => true

/-- The hook cells of one mounted instance of `App`: the state cell of its one
`useState` (`none` until the first render), the dependency list its one
`useEffect` was last called with (`none` until the first render), and whether
that effect is scheduled and has not run yet. -/
structure Hooks where
  state : Option JsVal
  prevDeps : Option Deps
  effectPending : Bool

/-- The call `useState(init)`: the first render stores `init` in the cell, and
every render returns the value of the cell. -/
def useState (init : JsVal) (h : Hooks) : JsVal × Hooks :=
  match h.state with
  | some v => (v, h)
  | none => (init, { h with state := some init })

/-- The call `useEffect(effect, deps)` for the single effect of the component:
the effect is scheduled on the first render, on every render when there is no
dependency list, and otherwise when the list differs from the previous one. -/
def useEffect (deps : Deps) (h : Hooks) : Hooks :=
  let schedule :=
    match h.prevDeps, deps with
    | none, _ => true
    | some none, _ => true
    | some (some _), none => true
    | some (some prev), some next => !areHookInputsEqual next prev
  { h with prevDeps := some deps, effectPending := h.effectPending || schedule }

/-- One call of the function `App`: the two hook calls and the returned tree.
The function declares no parameter, so the props React passes are ignored. -/
def App (_props : JsVal) (h : Hooks) : Node × Hooks :=
  let (status, h1) := useState (.str "loading...") h
  let h2 := useEffect (some []) h1
  (view status, h2)

/-! ## The mounted instance -/

/-- The two places of the source that call `setStatus`. -/
inductive CallSite where
  | success
  | failure
  deriving DecidableEq, Repr

/-- One call of `setStatus`: where it was made and the value passed. -/
structure Write where
  site : CallSite
  value : JsVal

/-- One mounted instance of `App` with its observable history: the hook cells,
the requests issued so far, the number of requests not settled yet, the calls
of `setStatus` so far, and the tree of the last render. -/
structure Instance where
  hooks : Hooks
  requests : List Request
  inFlight : Nat
  writes : List Write
  screen : Option Node

/-- The instance before its first render. -/
def mount : Instance :=
  { hooks := { state := none, prevDeps := none, effectPending := false },
    requests := [], inFlight := 0, writes := [], screen := none }

/-- The call `setStatus(v)` made at `site`: the state cell takes the value. -/
def setStatus (site : CallSite) (v : JsVal) (i : Instance) : Instance :=
  { i with hooks := { i.hooks with state := some v },
           writes := i.writes ++ [{ site := site, value := v }] }

/-! ## Promises -/

/-- A settled promise. -/
inductive Settled (α : Type) where
  | fulfilled (v : α)
  | rejected (reason : JsError)

/-- The settlement that corresponds to a result or an exception. -/
def Settled.ofExcept {α : Type} : Except JsError α → Settled α
  | .ok v => .fulfilled v
  | .error e => .rejected e

/-- The method `p.then(onFulfilled)`: a rejection passes through untouched; on
fulfilment the callback runs and its outcome (a returned value, the settlement
of a returned promise, or a thrown exception) settles the new promise. -/
def then_ {α β : Type} (p : Settled α × Instance)
    (onFulfilled : α → Instance → Settled β × Instance) : Settled β × Instance :=
  match p with
  | (.fulfilled v, i) => onFulfilled v i
  | (.rejected e, i) => (.rejected e, i)

/-- The method `p.catch(onRejected)`: a fulfilment passes through untouched; on
rejection the callback runs and its outcome settles the new promise. -/
def catch_ {α : Type} (p : Settled α × Instance)
    (onRejected : JsError → Instance → Settled α × Instance) : Settled α × Instance :=
  match p with
  | (.fulfilled v, i) => (.fulfilled v, i)
  | (.rejected e, i) => onRejected e i

/-- The callback `res => res.json()`. -/
def parseBody (res : Response) (i : Instance) : Settled JsVal × Instance :=
  (Settled.ofExcept res.json, i)

/-- The callback `data => setStatus(data.status)`: the argument is evaluated
first, so when the property access throws `setStatus` is not called. -/
def onData (data : JsVal) (i : Instance) : Settled JsVal × Instance :=
  match statusOf data with
  | .ok v => (.fulfilled .undefined, setStatus .success v i)
  | .error e => (.rejected e, i)

/-- The callback `() => setStatus('ERROR')`. -/
def onFailure (_reason : JsError) (i : Instance) : Settled JsVal × Instance :=
  (.fulfilled .undefined, setStatus .failure (.str "ERROR") i)

/-- The promise chain of the effect once `fetch` has settled with `r`. -/
def healthChain (r : FetchResult) (i : Instance) : Settled JsVal × Instance :=
  catch_ (then_ (then_ (Settled.ofExcept r, i) parseBody) onData) onFailure

/-- The body of the effect up to the point where it waits for the network: the
call `fetch('/api/health')`. -/
def effect (i : Instance) : Instance :=
  { i with requests := i.requests ++ [{ url := "/api/health", options := none }],
           inFlight := i.inFlight + 1 }

/-! ## Life cycle -/

/-- What can happen to a mounted instance. -/
inductive Event where
  | render (props : JsVal)
  | flushEffects
  | settle (r : FetchResult)

/-- Whether an event is the settlement of a request. -/
def Event.isSettle : Event → Bool
  | .settle _ => true
  | _ => false

/-- Whether an event is a render. -/
def Event.isRender : Event → Bool
  | .render _ => true
  | _ => false

/-- React runs the scheduled effect, if there is one. -/
def flush (i : Instance) : Instance :=
  if i.hooks.effectPending then
    effect { i with hooks := { i.hooks with effectPending := false } }
  else i

/-- One step of the life cycle. A render first runs an effect still scheduled
by the previous render, then calls `App` and keeps the returned tree. A
settlement runs the promise chain of a request in flight and is ignored when
no request is in flight; the callbacks of the chain touch the instance only
through `setStatus`, so the chain runs in one step. -/
def step (i : Instance) : Event → Instance
  | .render props =>
    let j := flush i
    let (tree, h) := App props j.hooks
    { j with hooks := h, screen := some tree }
  | .flushEffects => flush i
  | .settle r =>
    if 0 < i.inFlight then
      let j := (healthChain r i).2
      { j with inFlight := j.inFlight - 1 }
    else i

/-- The instance after a trace of events. -/
def run (i : Instance) (es : List Event) : Instance :=
  es.foldl step i

/-- The causes of failure of the request and parse path: the request rejects,
`res.json()` rejects, or the parsed value is `null` or `undefined`. -/
def failureCause : FetchResult → Bool
  | .error _ => true
  | .ok res =>
    match res.json with
    | .error _ => true
    | .ok data => data.isNullish

/-- The invariant of an instance after its first render: the effect was last
called with the empty dependency list, the state cell holds a value, the
effect is either scheduled or has issued its one request, every request has
either settled into one call of `setStatus` or is in flight, every request is
the call `fetch('/api/health')`, and the screen shows some status. -/
structure Mounted (i : Instance) : Prop where
  deps : i.hooks.prevDeps = some (some [])
  cell : ∃ v, i.hooks.state = some v
  once : i.requests.length + (if i.hooks.effectPending then 1 else 0) = 1
  balance : i.writes.length + i.inFlight = i.requests.length
  target : ∀ r ∈ i.requests, r = { url := "/api/health", options := none }
  shown : ∃ s, i.screen = some (view s)

/-- The state of an instance that has rendered and not written its status yet:
the cell and the screen hold the placeholder. -/
structure Loading (i : Instance) : Prop where
  cell : i.hooks.state = some (.str "loading...")
  shown : i.screen = some (view (.str "loading..."))
  untouched : i.writes = []

/-! ## Concrete inputs -/

/-- The instance after the first render and its effect: the request is in
flight. -/
def ready : Instance :=
  run mount [.render .undefined, .flushEffects]

/-- The response 200 with body `{ "status": "OK" }`. -/
def okResponse : Response :=
  { status := 200, json := .ok (.obj [("status", .str "OK")]) }

/-- The response 500 with body `{ "status": "DOWN" }`. -/
def downResponse : Response :=
  { status := 500, json := .ok (.obj [("status", .str "DOWN")]) }

/-- The response 200 with body `{}`. -/
def emptyObjectResponse : Response :=
  { status := 200, json := .ok (.obj []) }

/-- The response 200 with body `null`. -/
def nullResponse : Response :=
  { status := 200, json := .ok .null }

/-- The response 200 with body `{ "status": "ERROR" }`. -/
def errorTextResponse : Response :=
  { status := 200, json := .ok (.obj [("status", .str "ERROR")]) }

/-! ## The promise chain -/

theorem healthChain_unparsed (res : Response) (e : JsError) (i : Instance)
    (h : res.json = .error e) :
    healthChain (.ok res) i
      = (.fulfilled .undefined, setStatus .failure (.str "ERROR") i) := by
  simp [healthChain, Settled.ofExcept, then_, parseBody, h, catch_, onFailure]

theorem healthChain_parsed (res : Response) (data : JsVal) (i : Instance)
    (h : res.json = .ok data) :
    healthChain (.ok res) i
      = match statusOf data with
        | .ok v => (.fulfilled .undefined, setStatus .success v i)
        | .error _ => (.fulfilled .undefined, setStatus .failure (.str "ERROR") i) := by
  simp only [healthChain, Settled.ofExcept, then_, parseBody, h, onData]
  cases statusOf data <;> simp [catch_, onFailure]

theorem statusOf_error_iff (data : JsVal) :
    (∃ e, statusOf data = .error e) ↔ data.isNullish = true := by
  cases data <;> simp [statusOf, JsVal.isNullish]
  case obj fields => cases fields.lookup "status" <;> simp

theorem statusOf_nullish (data : JsVal) (h : data.isNullish = true) :
    statusOf data = .error .typeError := by
  cases data <;> simp_all [statusOf, JsVal.isNullish]

theorem statusOf_obj (fields : List (String × JsVal)) :
    statusOf (.obj fields) = .ok ((fields.lookup "status").getD .undefined) := by
  simp only [statusOf]
  cases fields.lookup "status" <;> rfl

/-- Every run of the chain is one call of `setStatus`: the failure call with
`'ERROR'` when there is a cause of failure, the success call with the value of
`data.status` otherwise. -/
theorem healthChain_cases (r : FetchResult) (i : Instance) :
    (failureCause r = true ∧
        healthChain r i = (.fulfilled .undefined, setStatus .failure (.str "ERROR") i)) ∨
    (failureCause r = false ∧ ∃ res data v, r = .ok res ∧ res.json = .ok data ∧
        statusOf data = .ok v ∧
        healthChain r i = (.fulfilled .undefined, setStatus .success v i)) := by
  cases r with
  | error e => exact Or.inl ⟨rfl, rfl⟩
  | ok res =>
    cases hj : res.json with
    | error e => exact Or.inl ⟨by simp [failureCause, hj], healthChain_unparsed res e i hj⟩
    | ok data =>
      cases hs : statusOf data with
      | error e =>
        have hn : data.isNullish = true := (statusOf_error_iff data).1 ⟨e, hs⟩
        refine Or.inl ⟨by simp [failureCause, hj, hn], ?_⟩
        rw [healthChain_parsed res data i hj, hs]
      | ok v =>
        have hn : data.isNullish = false := by
          cases hd : data.isNullish with
          | false => rfl
          | true => rw [statusOf_nullish data hd] at hs; cases hs
        refine Or.inr ⟨by simp [failureCause, hj, hn], res, data, v, rfl, hj, hs, ?_⟩
        rw [healthChain_parsed res data i hj, hs]

/-! ## Steps of the life cycle -/

theorem run_append (i : Instance) (es fs : List Event) :
    run i (es ++ fs) = run (run i es) fs := by
  simp [run, List.foldl_append]

/-- Before the first render nothing but a render changes the instance. -/
theorem step_mount_idle (e : Event) (h : e.isRender = false) : step mount e = mount := by
  cases e with
  | render p => simp [Event.isRender] at h
  | flushEffects => rfl
  | settle r => rfl

/-- The settlement of a request in flight is one call of `setStatus`, and the
request is no longer in flight. -/
theorem step_settle (i : Instance) (r : FetchResult) (h : 0 < i.inFlight) :
    ∃ w : Write, step i (.settle r) =
        { setStatus w.site w.value i with inFlight := i.inFlight - 1 } ∧
      ((failureCause r = true ∧ w = { site := .failure, value := .str "ERROR" }) ∨
       (failureCause r = false ∧ ∃ res data v, r = .ok res ∧ res.json = .ok data ∧
          statusOf data = .ok v ∧ w = { site := .success, value := v })) := by
  rcases healthChain_cases r i with ⟨hf, hc⟩ | ⟨hf, res, data, v, hr, hj, hs, hc⟩
  · exact ⟨⟨.failure, .str "ERROR"⟩, by simp [step, h, hc, setStatus], Or.inl ⟨hf, rfl⟩⟩
  · exact ⟨⟨.success, v⟩, by simp [step, h, hc, setStatus],
      Or.inr ⟨hf, res, data, v, hr, hj, hs, rfl⟩⟩

/-- A render shows the value of the state cell and leaves the cell alone. -/
theorem step_render_state (i : Instance) (p v : JsVal) (h : i.hooks.state = some v) :
    (step i (.render p)).hooks.state = some v ∧
      (step i (.render p)).screen = some (view v) := by
  obtain ⟨⟨st, pd, ep⟩, rq, fl, wr, sc⟩ := i
  simp only at h
  subst h
  cases ep <;> simp [step, flush, effect, App, useState, useEffect]

/-- The first render: the placeholder is stored and shown, and the effect is
scheduled. -/
theorem step_mount_render (p : JsVal) :
    Mounted (step mount (.render p)) ∧ Loading (step mount (.render p)) := by
  constructor
  · constructor <;> simp [step, mount, flush, App, useState, useEffect]
  · constructor <;> simp [step, mount, flush, App, useState, useEffect]

/-- Every step keeps the invariant of a mounted instance. -/
theorem mounted_step {i : Instance} (m : Mounted i) (e : Event) : Mounted (step i e) := by
  obtain ⟨hd, ⟨v, hv⟩, ho, hb, ht, ⟨s, hs⟩⟩ := m
  cases e with
  | render p =>
    obtain ⟨⟨st, pd, ep⟩, rq, fl, wr, sc⟩ := i
    simp only at hd hv ho hb ht hs
    subst hd hv
    cases ep
    · simp only [Bool.false_eq_true, if_false, Nat.add_zero] at ho
      refine ⟨?_, ?_, ?_, ?_, ?_, ?_⟩ <;>
        simp [step, flush, App, useState, useEffect, areHookInputsEqual]
      · exact ho
      · exact hb
      · exact ht
    · simp only [if_true] at ho
      have hrq : rq = [] := List.eq_nil_of_length_eq_zero (by omega)
      subst hrq
      simp only [List.length_nil, Nat.add_eq_zero] at hb
      refine ⟨?_, ?_, ?_, ?_, ?_, ?_⟩ <;>
        simp [step, flush, effect, App, useState, useEffect, areHookInputsEqual,
          hb.1, hb.2]
  | flushEffects =>
    obtain ⟨⟨st, pd, ep⟩, rq, fl, wr, sc⟩ := i
    simp only at hd hv ho hb ht hs
    subst hd hv
    cases ep
    · exact ⟨rfl, ⟨v, rfl⟩, ho, hb, ht, ⟨s, hs⟩⟩
    · simp only [if_true] at ho
      have hrq : rq = [] := List.eq_nil_of_length_eq_zero (by omega)
      subst hrq
      simp only [List.length_nil, Nat.add_eq_zero] at hb
      refine ⟨?_, ?_, ?_, ?_, ?_, ?_⟩ <;>
        simp [step, flush, effect, hb.1, hb.2, hs]
  | settle r =>
    by_cases hf : 0 < i.inFlight
    · obtain ⟨w, hw, -⟩ := step_settle i r hf
      rw [hw]
      refine ⟨?_, ?_, ?_, ?_, ?_, ?_⟩ <;> simp [setStatus]
      · exact hd
      · exact ho
      · omega
      · exact ht
      · exact ⟨s, hs⟩
    · have : step i (.settle r) = i := by simp [step, hf]
      rw [this]
      exact ⟨hd, ⟨v, hv⟩, ho, hb, ht, ⟨s, hs⟩⟩

/-- Before any settlement every step keeps the placeholder in the cell and on
the screen. -/
theorem loading_step {i : Instance} (l : Loading i) (e : Event)
    (h : e.isSettle = false) : Loading (step i e) := by
  obtain ⟨hc, hs, hw⟩ := l
  cases e with
  | render p =>
    obtain ⟨h1, h2⟩ := step_render_state i p _ hc
    refine ⟨h1, h2, ?_⟩
    obtain ⟨⟨st, pd, ep⟩, rq, fl, wr, sc⟩ := i
    simp only at hw
    cases ep <;> simp [step, flush, effect, App, hw]
  | flushEffects =>
    obtain ⟨⟨st, pd, ep⟩, rq, fl, wr, sc⟩ := i
    simp only at hc hs hw
    cases ep <;> constructor <;> simp [step, flush, effect, hc, hs, hw]
  | settle r => simp [Event.isSettle] at h

/-- A step that is not a settlement leaves the value of the state cell alone. -/
theorem step_keeps_state (i : Instance) (e : Event) (v : JsVal)
    (h : e.isSettle = false) (hv : i.hooks.state = some v) :
    (step i e).hooks.state = some v := by
  cases e with
  | render p => exact (step_render_state i p v hv).1
  | flushEffects =>
    obtain ⟨⟨st, pd, ep⟩, rq, fl, wr, sc⟩ := i
    simp only at hv
    cases ep <;> simp [step, flush, effect, hv]
  | settle r => simp [Event.isSettle] at h

/-- No step withdraws a request. -/
theorem step_requests_mono (i : Instance) (e : Event) :
    i.requests.length ≤ (step i e).requests.length := by
  obtain ⟨⟨st, pd, ep⟩, rq, fl, wr, sc⟩ := i
  cases e with
  | render p => cases ep <;> simp [step, flush, effect, App]
  | flushEffects => cases ep <;> simp [step, flush, effect]
  | settle r =>
    by_cases hf : 0 < fl
    · obtain ⟨w, hw, -⟩ := step_settle ⟨⟨st, pd, ep⟩, rq, fl, wr, sc⟩ r hf
      simp [hw, setStatus]
    · simp [step, hf]

/-- No step withdraws a call of `setStatus`. -/
theorem step_writes_mono (i : Instance) (e : Event) :
    i.writes.length ≤ (step i e).writes.length := by
  obtain ⟨⟨st, pd, ep⟩, rq, fl, wr, sc⟩ := i
  cases e with
  | render p => cases ep <;> simp [step, flush, effect, App]
  | flushEffects => cases ep <;> simp [step, flush, effect]
  | settle r =>
    by_cases hf : 0 < fl
    · obtain ⟨w, hw, -⟩ := step_settle ⟨⟨st, pd, ep⟩, rq, fl, wr, sc⟩ r hf
      simp [hw, setStatus]
    · simp [step, hf]

/-! ## Traces -/

theorem run_snoc (i : Instance) (es : List Event) (e : Event) :
    run i (es ++ [e]) = step (run i es) e := by
  rw [run_append]; rfl

theorem mounted_run {i : Instance} (m : Mounted i) (es : List Event) :
    Mounted (run i es) := by
  induction es generalizing i with
  | nil => exact m
  | cons e es ih => exact ih (mounted_step m e)

theorem run_requests_mono (i : Instance) (es : List Event) :
    i.requests.length ≤ (run i es).requests.length := by
  induction es generalizing i with
  | nil => exact Nat.le_refl _
  | cons e es ih => exact Nat.le_trans (step_requests_mono i e) (ih (step i e))

theorem run_writes_mono (i : Instance) (es : List Event) :
    i.writes.length ≤ (run i es).writes.length := by
  induction es generalizing i with
  | nil => exact Nat.le_refl _
  | cons e es ih => exact Nat.le_trans (step_writes_mono i e) (ih (step i e))

/-- A trace from `mount` either has no render and has changed nothing, or has a
render and has reached a mounted instance. -/
theorem reach (es : List Event) :
    (es.any Event.isRender = false ∧ run mount es = mount) ∨
    (es.any Event.isRender = true ∧ Mounted (run mount es)) := by
  induction es using List.reverseRecOn with
  | nil => exact Or.inl ⟨rfl, rfl⟩
  | append_singleton es e ih =>
    rw [run_snoc]
    rcases ih with ⟨hn, hm⟩ | ⟨hr, hm⟩
    · rw [hm]
      cases hre : e.isRender with
      | false =>
        exact Or.inl ⟨by simp [List.any_append, hn, hre], step_mount_idle e hre⟩
      | true =>
        cases e with
        | render p => exact Or.inr ⟨by simp [List.any_append, hre], (step_mount_render p).1⟩
        | flushEffects => simp [Event.isRender] at hre
        | settle r => simp [Event.isRender] at hre
    · exact Or.inr ⟨by simp [List.any_append, hr], mounted_step hm e⟩

/-- A trace from `mount` without a settlement either has no render and has
changed nothing, or shows the placeholder. -/
theorem reach_loading (es : List Event) (h : ∀ e ∈ es, e.isSettle = false) :
    (es.any Event.isRender = false ∧ run mount es = mount) ∨
    (es.any Event.isRender = true ∧ Loading (run mount es)) := by
  induction es using List.reverseRecOn with
  | nil => exact Or.inl ⟨rfl, rfl⟩
  | append_singleton es e ih =>
    have he : e.isSettle = false := h e (by simp)
    have hes : ∀ e' ∈ es, e'.isSettle = false := fun e' he' => h e' (by simp [he'])
    rw [run_snoc]
    rcases ih hes with ⟨hn, hm⟩ | ⟨hr, hl⟩
    · rw [hm]
      cases hre : e.isRender with
      | false =>
        exact Or.inl ⟨by simp [List.any_append, hn, hre], step_mount_idle e hre⟩
      | true =>
        cases e with
        | render p => exact Or.inr ⟨by simp [List.any_append, hre], (step_mount_render p).2⟩
        | flushEffects => simp [Event.isRender] at hre
        | settle r => simp [Event.isRender] at hre
    · exact Or.inr ⟨by simp [List.any_append, hr], loading_step hl e he⟩

/-- A mounted instance has issued at most one request. -/
theorem mounted_requests_le {i : Instance} (m : Mounted i) : i.requests.length ≤ 1 := by
  have := m.once
  omega

theorem ready_inFlight : 0 < ready.inFlight := by decide

/-- The settlement of a parsed object that has a `status` field stores the
value of the field. -/
theorem settle_field (i : Instance) (res : Response)
    (fields : List (String × JsVal)) (s : JsVal)
    (hflight : 0 < i.inFlight) (hbody : res.json = .ok (.obj fields))
    (hfield : fields.lookup "status" = some s) :
    (step i (.settle (.ok res))).hooks.state = some s := by
  obtain ⟨w, hw, hc⟩ := step_settle i (.ok res) hflight
  rcases hc with ⟨hf, -⟩ | ⟨-, res', data, v, hr, hj, hs, hwv⟩
  · simp [failureCause, hbody, JsVal.isNullish] at hf
  · cases hr
    rw [hbody] at hj
    cases hj
    rw [statusOf_obj, hfield] at hs
    cases hs
    rw [hw, hwv]
    rfl

/-- The settlement of a failed request or of a body that is not JSON stores
`'ERROR'`. -/
theorem settle_failed (i : Instance) (r : FetchResult)
    (hflight : 0 < i.inFlight)
    (hfail : (∃ e, r = .error e) ∨ (∃ res e, r = .ok res ∧ res.json = .error e)) :
    (step i (.settle r)).hooks.state = some (.str "ERROR") := by
  obtain ⟨w, hw, hc⟩ := step_settle i r hflight
  rcases hc with ⟨-, hwv⟩ | ⟨hf, -⟩
  · rw [hw, hwv]; rfl
  · rcases hfail with ⟨e, he⟩ | ⟨res, e, he, hj⟩
    · subst he; simp [failureCause] at hf
    · subst he; simp [failureCause, hj] at hf

/-- A mounted instance that has issued a request has issued exactly the call
`fetch('/api/health')`. -/
theorem mounted_requests_eq {i : Instance} (m : Mounted i) (h : 0 < i.requests.length) :
    i.requests = [{ url := "/api/health", options := none }] := by
  have hle := mounted_requests_le m
  have ht := m.target
  cases hq : i.requests with
  | nil => rw [hq] at h; cases h
  | cons a as =>
    rw [hq] at hle ht
    have has : as = [] := List.eq_nil_of_length_eq_zero (by simpa using hle)
    subst has
    rw [ht a (by simp)]

/-- Once an instance has rendered and issued its request, the requests are
exactly the call `fetch('/api/health')` whatever follows. -/
theorem run_requests_eq {i : Instance} (m : Mounted i) (h : 0 < i.requests.length)
    (es : List Event) :
    (run i es).requests = [{ url := "/api/health", options := none }] :=
  mounted_requests_eq (mounted_run m es)
    (Nat.lt_of_lt_of_le h (run_requests_mono i es))

/-! ## The claims -/

/-- C1: when the request resolves and the body parses to an object with a
`status` field `s`, the status state after the chain has settled is `s`, and
the next render shows `s` in the status slot. -/
theorem C1_success_sets_status (i : Instance) (res : Response)
    (fields : List (String × JsVal)) (s p : JsVal)
    (hflight : 0 < i.inFlight) (hbody : res.json = .ok (.obj fields))
    (hfield : fields.lookup "status" = some s) :
    (step i (.settle (.ok res))).hooks.state = some s ∧
    (step (step i (.settle (.ok res))) (.render p)).screen = some (view s) ∧
    (view s).slots = [s] :=
  have hst := settle_field i res fields s hflight hbody hfield
  ⟨hst, (step_render_state _ p s hst).2, rfl⟩

/-- C1 at the body `{ "status": "OK" }`: the status state and the shown status
are `"OK"`. -/
theorem C1_success_sets_status_witness :
    0 < ready.inFlight ∧
    (step ready (.settle (.ok okResponse))).hooks.state = some (.str "OK") ∧
    (step (step ready (.settle (.ok okResponse))) (.render .undefined)).screen
      = some (view (.str "OK")) ∧
    (view (.str "OK")).slots = [.str "OK"] :=
  ⟨ready_inFlight,
    C1_success_sets_status ready okResponse [("status", .str "OK")] (.str "OK") .undefined
      ready_inFlight rfl rfl⟩

/-- C2: when the request rejects, or resolves with a body that fails to parse,
the status state after the chain has settled is the literal `'ERROR'`,
whatever the reason of the failure, and the next render shows it. -/
theorem C2_failure_sets_error (i : Instance) (r : FetchResult) (p : JsVal)
    (hflight : 0 < i.inFlight)
    (hfail : (∃ e, r = .error e) ∨ (∃ res e, r = .ok res ∧ res.json = .error e)) :
    (step i (.settle r)).hooks.state = some (.str "ERROR") ∧
    (step (step i (.settle r)) (.render p)).screen = some (view (.str "ERROR")) :=
  have hst := settle_failed i r hflight hfail
  ⟨hst, (step_render_state _ p _ hst).2⟩

/-- C2 at a network failure: the status state and the shown status are
`'ERROR'`. -/
theorem C2_failure_sets_error_witness :
    0 < ready.inFlight ∧
    (step ready (.settle (.error .typeError))).hooks.state = some (.str "ERROR") ∧
    (step (step ready (.settle (.error .typeError))) (.render .undefined)).screen
      = some (view (.str "ERROR")) :=
  ⟨ready_inFlight,
    C2_failure_sets_error ready (.error .typeError) .undefined ready_inFlight
      (Or.inl ⟨.typeError, rfl⟩)⟩

/-- C3 fails as stated: the response 500 with body `{ "status": "DOWN" }` is an
HTTP error, and the status state after the chain has settled is `"DOWN"`, not
`'ERROR'`. -/
theorem C3_http_error_counterexample :
    downResponse.ok = false ∧
    (step ready (.settle (.ok downResponse))).hooks.state = some (.str "DOWN") ∧
    (step ready (.settle (.ok downResponse))).hooks.state ≠ some (.str "ERROR") := by
  have h := settle_field ready downResponse [("status", .str "DOWN")] (.str "DOWN")
    ready_inFlight rfl rfl
  refine ⟨by decide, h, ?_⟩
  rw [h]
  simp

/-- C3 as amended: the status code of the response is not inspected. A response
with an HTTP error status settles exactly as the response 200 with the same
body does: the status state is `'ERROR'` when the body fails to parse, and the
`status` field of the body when it parses to an object that has one. -/
theorem C3_status_code_not_inspected (i : Instance) (code : Nat)
    (body : Except JsError JsVal) (hflight : 0 < i.inFlight)
    (_herr : Response.ok { status := code, json := body } = false) :
    step i (.settle (.ok { status := code, json := body }))
      = step i (.settle (.ok { status := 200, json := body })) ∧
    (∀ e, body = .error e →
      (step i (.settle (.ok { status := code, json := body }))).hooks.state
        = some (.str "ERROR")) ∧
    (∀ fields s, body = .ok (.obj fields) → fields.lookup "status" = some s →
      (step i (.settle (.ok { status := code, json := body }))).hooks.state = some s) := by
  refine ⟨?_, ?_, ?_⟩
  · simp [step, healthChain, Settled.ofExcept, then_, parseBody]
  · intro e he
    exact settle_failed i _ hflight (Or.inr ⟨_, e, rfl, he⟩)
  · intro fields s hb hf
    exact settle_field i _ fields s hflight hb hf

/-- C3 as amended, at the response 500 with body `{ "status": "DOWN" }`: it
settles as the response 200 with that body does. -/
theorem C3_status_code_not_inspected_witness :
    0 < ready.inFlight ∧ downResponse.ok = false ∧
    step ready (.settle (.ok downResponse))
      = step ready (.settle (.ok { status := 200, json := downResponse.json })) :=
  ⟨ready_inFlight, by decide,
    (C3_status_code_not_inspected ready 500 downResponse.json ready_inFlight
      (by decide)).1⟩

/-- C4: in every trace that has a render and no settlement, the status state is
the placeholder `'loading...'`, the screen shows the placeholder, and
`setStatus` has not been called; and no step other than a settlement changes
the value of the state cell. The screen is the fixed layout with the
placeholder in bold after `Backend Health: `, and the placeholder is the value
of its one embedded expression. -/
theorem C4_placeholder_until_settled (es : List Event)
    (hrender : es.any Event.isRender = true)
    (hpending : ∀ e ∈ es, e.isSettle = false) :
    (run mount es).hooks.state = some (.str "loading...") ∧
    (run mount es).screen = some (view (.str "loading...")) ∧
    (run mount es).writes = [] ∧
    (∀ e v, e.isSettle = false →
      (run mount es).hooks.state = some v →
        (step (run mount es) e).hooks.state = some v) ∧
    (run mount es).screen = some
      (.elem "div" [("padding", "40px"), ("fontFamily", "Arial")]
        [ .elem "h1" [] [.text "React Frontend"],
          .elem "p" [] [.text "Backend Health: ",
            .elem "b" [] [.expr (.str "loading...")]] ]) ∧
    (∃ tree, (run mount es).screen = some tree ∧ tree.slots = [.str "loading..."]) ∧
    mount.hooks.state = none ∧
    (∀ p, (step mount (.render p)).hooks.state = some (.str "loading...")) := by
  rcases reach_loading es hpending with ⟨hn, -⟩ | ⟨-, hl⟩
  · rw [hn] at hrender; cases hrender
  · exact ⟨hl.cell, hl.shown, hl.untouched, fun e v he hv => step_keeps_state _ e v he hv,
      hl.shown, ⟨_, hl.shown, rfl⟩, rfl, fun p => (step_mount_render p).2.cell⟩

/-- C4 at the trace of the first render, its effect and a second render: the
state cell holds the placeholder and the one embedded expression of the screen
is the placeholder. -/
theorem C4_placeholder_until_settled_witness :
    (run mount [.render .undefined, .flushEffects, .render .null]).hooks.state
      = some (.str "loading...") ∧
    (run mount [.render .undefined, .flushEffects, .render .null]).screen
      = some (view (.str "loading...")) ∧
    (∃ tree, (run mount [.render .undefined, .flushEffects, .render .null]).screen
      = some tree ∧ tree.slots = [.str "loading..."]) :=
  have h := C4_placeholder_until_settled
    [.render .undefined, .flushEffects, .render .null] (by decide) (by decide)
  ⟨h.1, h.2.1, h.2.2.2.2.2.1⟩

/-- C5: one mounted instance issues exactly one request, and issues it after the
first render. In every trace the requests issued, plus the effect waiting to
run, number one if the trace has a render and none otherwise; at most one
request is ever issued; and once the effect of the first render has run,
whether flushed by React or by the next render, the number of requests is
exactly one whatever follows. -/
theorem C5_one_request_per_mount (p q : JsVal) (es : List Event) :
    ((run mount es).requests.length + (if (run mount es).hooks.effectPending then 1 else 0)
      = if es.any Event.isRender then 1 else 0) ∧
    (run mount es).requests.length ≤ 1 ∧
    (run mount (.render p :: .flushEffects :: es)).requests.length = 1 ∧
    (run mount (.render p :: .render q :: es)).requests.length = 1 := by
  refine ⟨?_, ?_, ?_, ?_⟩
  · rcases reach es with ⟨hn, hm⟩ | ⟨hr, hm⟩
    · rw [hm, hn]; rfl
    · rw [hr]; exact hm.once
  · rcases reach es with ⟨-, hm⟩ | ⟨-, hm⟩
    · rw [hm]; exact Nat.zero_le _
    · exact mounted_requests_le hm
  · have hm : Mounted (run mount [.render p, .flushEffects]) :=
      mounted_run (step_mount_render p).1 [.flushEffects]
    have h1 : (run mount [.render p, .flushEffects]).requests.length = 1 := rfl
    have h2 := run_requests_mono (run mount [.render p, .flushEffects]) es
    have h3 := mounted_requests_le (mounted_run hm es)
    have h4 : run mount (.render p :: .flushEffects :: es)
        = run (run mount [.render p, .flushEffects]) es := rfl
    rw [h4]; omega
  · have hm : Mounted (run mount [.render p, .render q]) :=
      mounted_run (step_mount_render p).1 [.render q]
    have h1 : (run mount [.render p, .render q]).requests.length = 1 := rfl
    have h2 := run_requests_mono (run mount [.render p, .render q]) es
    have h3 := mounted_requests_le (mounted_run hm es)
    have h4 : run mount (.render p :: .render q :: es)
        = run (run mount [.render p, .render q]) es := rfl
    rw [h4]; omega

/-- C6: while the request is in flight `setStatus` has not been called; the
settlement calls it exactly once, from the success callback or from the
failure callback with `'ERROR'`; and whatever follows the settlement, the
number of calls stays exactly one. -/
theorem C6_status_written_once (es fs : List Event) (r : FetchResult)
    (hflight : 0 < (run mount es).inFlight) :
    (run mount es).writes = [] ∧
    (∃ w : Write, (run mount (es ++ [.settle r])).writes = [w] ∧
      (w = { site := .failure, value := .str "ERROR" } ∨
        ∃ v, w = { site := .success, value := v })) ∧
    (run mount (es ++ [.settle r])).inFlight = 0 ∧
    (run mount (es ++ .settle r :: fs)).writes.length = 1 := by
  have hm : Mounted (run mount es) := by
    rcases reach es with ⟨-, hm⟩ | ⟨-, hm⟩
    · rw [hm] at hflight; cases hflight
    · exact hm
  have hb := hm.balance
  have hle := mounted_requests_le hm
  have hw0 : (run mount es).writes = [] := List.eq_nil_of_length_eq_zero (by omega)
  obtain ⟨w, hw, hc⟩ := step_settle (run mount es) r hflight
  have hws : (run mount (es ++ [.settle r])).writes = [w] := by
    rw [run_snoc, hw]; simp [setStatus, hw0]
  have hfl : (run mount (es ++ [.settle r])).inFlight = 0 := by
    rw [run_snoc, hw]; simp [setStatus]; omega
  refine ⟨hw0, ⟨w, hws, ?_⟩, hfl, ?_⟩
  · rcases hc with ⟨-, hwv⟩ | ⟨-, -, -, v, -, -, -, hwv⟩
    · exact Or.inl hwv
    · exact Or.inr ⟨v, hwv⟩
  · have hm2 : Mounted (run mount (es ++ .settle r :: fs)) := by
      rw [run_append]; exact mounted_run hm _
    have h1 := hm2.balance
    have h2 := mounted_requests_le hm2
    have h3 : run mount (es ++ .settle r :: fs) = run (run mount (es ++ [.settle r])) fs := by
      rw [← run_append]; simp
    have h4 := run_writes_mono (run mount (es ++ [.settle r])) fs
    rw [hws] at h4
    rw [h3]
    rw [h3] at h1 h2
    simp only [List.length_singleton] at h4
    omega

/-- C6 at the first render, its effect and a network failure followed by a
render: one call of `setStatus`. -/
theorem C6_status_written_once_witness :
    0 < (run mount [.render .undefined, .flushEffects]).inFlight ∧
    (run mount ([.render .undefined, .flushEffects]
      ++ .settle (.error .typeError) :: [.render .undefined])).writes.length = 1 :=
  ⟨by decide,
    (C6_status_written_once [.render .undefined, .flushEffects] [.render .undefined]
      (.error .typeError) (by decide)).2.2.2⟩

/-- C7 fails as stated: the body `{}` parses, and the status state after the
chain has settled is `undefined`, which is not a string. -/
theorem C7_not_a_string_counterexample :
    emptyObjectResponse.json = .ok (.obj []) ∧
    (step ready (.settle (.ok emptyObjectResponse))).hooks.state = some .undefined ∧
    JsVal.isString .undefined = false := by
  refine ⟨rfl, ?_, rfl⟩
  obtain ⟨w, hw, hc⟩ := step_settle ready (.ok emptyObjectResponse) ready_inFlight
  rcases hc with ⟨hf, -⟩ | ⟨-, res, data, v, hr, hj, hs, hwv⟩
  · simp [failureCause, emptyObjectResponse, JsVal.isNullish] at hf
  · cases hr
    cases hj
    cases hs
    rw [hw, hwv]
    rfl

/-- C7 as amended: in every reachable state the status value is absent (only
before the first render), the placeholder `'loading...'`, the literal `'ERROR'`, or
the value of `data.status` for the parsed body `data` of a response that
settled; and the value of `data.status` is a string exactly when `data` is an
object whose `status` field is a string. -/
theorem C7_status_provenance (es : List Event) :
    (((run mount es).hooks.state = none ∧ es.any Event.isRender = false) ∨
     (run mount es).hooks.state = some (.str "loading...") ∨
     (run mount es).hooks.state = some (.str "ERROR") ∨
     ∃ res data v, Event.settle (.ok res) ∈ es ∧ res.json = .ok data ∧
       statusOf data = .ok v ∧ (run mount es).hooks.state = some v) ∧
    (∀ data v, statusOf data = .ok v →
      (v.isString = true ↔
        ∃ fields t, data = .obj fields ∧ fields.lookup "status" = some (.str t) ∧
          v = .str t)) := by
  constructor
  · have key : (run mount es).hooks.state = none ∨
        (run mount es).hooks.state = some (.str "loading...") ∨
        (run mount es).hooks.state = some (.str "ERROR") ∨
        ∃ res data v, Event.settle (.ok res) ∈ es ∧ res.json = .ok data ∧
          statusOf data = .ok v ∧ (run mount es).hooks.state = some v := by
      induction es using List.reverseRecOn with
        | nil => exact Or.inl rfl
        | append_singleton es e ih =>
          rw [run_snoc]
          cases hse : e.isSettle with
          | false =>
            rcases ih with h | h | h | ⟨res, data, v, hmem, hj, hs, h⟩
            · rcases reach es with ⟨-, hm⟩ | ⟨-, hm⟩
              · rw [hm]
                cases e with
                | render p => exact Or.inr (Or.inl (step_mount_render p).2.cell)
                | flushEffects => exact Or.inl rfl
                | settle r => exact Or.inl rfl
              · obtain ⟨v, hv⟩ := hm.cell
                rw [hv] at h; cases h
            · exact Or.inr (Or.inl (step_keeps_state _ e _ hse h))
            · exact Or.inr (Or.inr (Or.inl (step_keeps_state _ e _ hse h)))
            · exact Or.inr (Or.inr (Or.inr ⟨res, data, v, by simp [hmem], hj, hs,
                step_keeps_state _ e _ hse h⟩))
          | true =>
            cases e with
            | render p => simp [Event.isSettle] at hse
            | flushEffects => simp [Event.isSettle] at hse
            | settle r =>
              by_cases hf : 0 < (run mount es).inFlight
              · obtain ⟨w, hw, hc⟩ := step_settle (run mount es) r hf
                rw [hw]
                rcases hc with ⟨-, hwv⟩ | ⟨-, res, data, v, hr, hj, hs, hwv⟩
                · exact Or.inr (Or.inr (Or.inl (by rw [hwv]; rfl)))
                · exact Or.inr (Or.inr (Or.inr ⟨res, data, v, by simp [hr], hj, hs,
                    by rw [hwv]; rfl⟩))
              · have hid : step (run mount es) (.settle r) = run mount es := by
                  simp [step, hf]
                rw [hid]
                rcases ih with h | h | h | ⟨res, data, v, hmem, hj, hs, h⟩
                · exact Or.inl h
                · exact Or.inr (Or.inl h)
                · exact Or.inr (Or.inr (Or.inl h))
                · exact Or.inr (Or.inr (Or.inr ⟨res, data, v, by simp [hmem], hj, hs, h⟩))
    rcases key with h | h
    · rcases reach es with ⟨hn, -⟩ | ⟨-, hm⟩
      · exact Or.inl ⟨h, hn⟩
      · obtain ⟨v, hv⟩ := hm.cell
        rw [hv] at h; cases h
    · exact Or.inr h
  · intro data v hs
    cases data with
    | obj fields =>
      rw [statusOf_obj] at hs
      cases hl : fields.lookup "status" with
      | none =>
        rw [hl] at hs
        cases hs
        simp [JsVal.isString]
      | some u =>
        rw [hl] at hs
        cases hs
        cases u <;> simp [JsVal.isString, hl]
    | undefined => cases hs
    | null => cases hs
    | bool b => cases hs; simp [JsVal.isString]
    | num n => cases hs; simp [JsVal.isString]
    | str t => cases hs; simp [JsVal.isString]
    | arr xs => cases hs; simp [JsVal.isString]

/-- C8: for every status value the tree `App` returns is the same fixed layout,
a container holding the heading `React Frontend` and the line
`Backend Health: ` followed by the status in bold. The status is its only
embedded expression, so the trees of two status values differ in that slot
only; every call of `App` returns this layout, and every screen of a mounted
instance is this layout. -/
theorem C8_fixed_layout (s t props : JsVal) (h : Hooks) (es : List Event) :
    view s = .elem "div" [("padding", "40px"), ("fontFamily", "Arial")]
      [ .elem "h1" [] [.text "React Frontend"],
        .elem "p" [] [.text "Backend Health: ", .elem "b" [] [.expr s]] ] ∧
    (view s).slots = [s] ∧
    (view s).fill t = view t ∧
    (App props h).1 = view (h.state.getD (.str "loading...")) ∧
    ((run mount es).screen = none ∨ ∃ v, (run mount es).screen = some (view v)) := by
  refine ⟨rfl, rfl, rfl, ?_, ?_⟩
  · obtain ⟨st, pd, ep⟩ := h
    cases st <;> simp [App, useState]
  · rcases reach es with ⟨-, hm⟩ | ⟨-, hm⟩
    · rw [hm]; exact Or.inl rfl
    · exact Or.inr hm.shown

/-- C9: the request is issued, and it is always the call
`fetch('/api/health')`: the path `/api/health`, no options, method `GET`. In
every trace, whatever the props of the renders and the settlements before, the
requests issued are none or that single call; they are that single call exactly
when the trace has a render and the effect is no longer waiting to run; and
once the effect of the first render has run, flushed by React or by the next
render, they are that single call whatever follows. -/
theorem C9_fixed_request (p q : JsVal) (es : List Event) :
    ((run mount es).requests = [] ∨
      (run mount es).requests = [{ url := "/api/health", options := none }]) ∧
    (∀ r ∈ (run mount es).requests,
      r.url = "/api/health" ∧ r.options = none ∧ r.method = .str "GET") ∧
    ((run mount es).requests =
      if es.any Event.isRender && !(run mount es).hooks.effectPending
      then [{ url := "/api/health", options := none }] else []) ∧
    (run mount (.render p :: .flushEffects :: es)).requests
      = [{ url := "/api/health", options := none }] ∧
    (run mount (.render p :: .render q :: es)).requests
      = [{ url := "/api/health", options := none }] ∧
    (effect mount).requests = [{ url := "/api/health", options := none }] := by
  refine ⟨?_, ?_, ?_, ?_, ?_, rfl⟩
  · rcases reach es with ⟨-, hm⟩ | ⟨-, hm⟩
    · rw [hm]; exact Or.inl rfl
    · cases hq : (run mount es).requests with
      | nil => exact Or.inl rfl
      | cons a as =>
        rw [← hq]
        exact Or.inr (mounted_requests_eq hm (by rw [hq]; simp))
  · rcases reach es with ⟨-, hm⟩ | ⟨-, hm⟩
    · rw [hm]
      intro r hr
      simp [mount] at hr
    · intro r hr
      rw [hm.target r hr]
      exact ⟨rfl, rfl, rfl⟩
  · rcases reach es with ⟨hn, hm⟩ | ⟨hr, hm⟩
    · rw [hm, hn]; rfl
    · have ho := hm.once
      rw [hr]
      cases hp : (run mount es).hooks.effectPending with
      | false =>
        rw [hp] at ho
        simp only [Bool.false_eq_true, if_false, Nat.add_zero] at ho
        simpa using mounted_requests_eq hm (by omega)
      | true =>
        rw [hp] at ho
        simp only [if_true] at ho
        simpa using List.eq_nil_of_length_eq_zero (by omega)
  · have h1 : (run mount [.render p, .flushEffects]).requests.length = 1 := rfl
    exact @run_requests_eq (run mount [.render p, .flushEffects])
      (mounted_run (step_mount_render p).1 [.flushEffects]) (by rw [h1]; exact Nat.one_pos) es
  · have h1 : (run mount [.render p, .render q]).requests.length = 1 := rfl
    exact @run_requests_eq (run mount [.render p, .render q])
      (mounted_run (step_mount_render p).1 [.render q]) (by rw [h1]; exact Nat.one_pos) es

/-- C10 fails as stated: the body `{ "status": "ERROR" }` parses to an object,
so there is no cause of failure, and yet the final status is `'ERROR'`. -/
theorem C10_error_text_counterexample :
    failureCause (.ok errorTextResponse) = false ∧
    (step ready (.settle (.ok errorTextResponse))).hooks.state = some (.str "ERROR") :=
  ⟨by decide,
    settle_field ready errorTextResponse [("status", .str "ERROR")] (.str "ERROR")
      ready_inFlight rfl rfl⟩

/-- C10 as amended: the settlement is one call of `setStatus`, made by the
failure callback exactly when the request rejects, the parse rejects or the
parsed value is `null` or `undefined`, and then with `'ERROR'`; a parsed object
without a `status` field stores `undefined` through the success callback; and
the final status is `'ERROR'` exactly when there is such a cause of failure or
the value of `data.status` of the parsed body is itself the string
`'ERROR'`. -/
theorem C10_error_status_causes (i : Instance) (r : FetchResult)
    (hflight : 0 < i.inFlight) :
    (∃ w : Write, (step i (.settle r)).writes = i.writes ++ [w] ∧
      (step i (.settle r)).hooks.state = some w.value ∧
      (w.site = .failure ↔ failureCause r = true) ∧
      (w.site = .failure → w.value = .str "ERROR")) ∧
    (∀ res fields, r = .ok res → res.json = .ok (.obj fields) →
      fields.lookup "status" = none →
      (step i (.settle r)).writes = i.writes ++ [{ site := .success, value := .undefined }] ∧
      (step i (.settle r)).hooks.state = some .undefined) ∧
    ((step i (.settle r)).hooks.state = some (.str "ERROR") ↔
      (failureCause r = true ∨
        ∃ res data, r = .ok res ∧ res.json = .ok data ∧
          statusOf data = .ok (.str "ERROR"))) := by
  obtain ⟨w, hw, hc⟩ := step_settle i r hflight
  have hwr : (step i (.settle r)).writes = i.writes ++ [w] := by rw [hw]; rfl
  have hst : (step i (.settle r)).hooks.state = some w.value := by rw [hw]; rfl
  refine ⟨⟨w, hwr, hst, ?_, ?_⟩, ?_, ?_⟩
  · rcases hc with ⟨hf, hwv⟩ | ⟨hf, -, -, v, -, -, -, hwv⟩
    · rw [hwv, hf]; simp
    · rw [hwv, hf]; simp
  · rcases hc with ⟨-, hwv⟩ | ⟨-, -, -, v, -, -, -, hwv⟩
    · intro _; rw [hwv]
    · intro h; rw [hwv] at h; cases h
  · intro res fields hr hj hl
    rcases hc with ⟨hf, -⟩ | ⟨-, res', data, v, hr', hj', hs, hwv⟩
    · subst hr; simp [failureCause, hj, JsVal.isNullish] at hf
    · subst hr
      cases hr'
      rw [hj] at hj'
      cases hj'
      rw [statusOf_obj, hl] at hs
      cases hs
      rw [hwr, hst, hwv]
      exact ⟨rfl, rfl⟩
  · rw [hst]
    rcases hc with ⟨hf, hwv⟩ | ⟨hf, res, data, v, hr, hj, hs, hwv⟩
    · rw [hwv]
      exact ⟨fun _ => Or.inl hf, fun _ => rfl⟩
    · rw [hwv]
      constructor
      · intro h
        cases h
        exact Or.inr ⟨res, data, hr, hj, hs⟩
      · rintro (h | ⟨res', data', hr', hj', hs'⟩)
        · rw [hf] at h; cases h
        · subst hr
          cases hr'
          rw [hj] at hj'
          cases hj'
          rw [hs] at hs'
          cases hs'
          rfl

/-- C10 as amended, at the body `null`: the failure callback stores
`'ERROR'`. -/
theorem C10_error_status_causes_witness :
    0 < ready.inFlight ∧ failureCause (.ok nullResponse) = true ∧
    (step ready (.settle (.ok nullResponse))).hooks.state = some (.str "ERROR") :=
  ⟨ready_inFlight, by decide,
    (C10_error_status_causes ready (.ok nullResponse) ready_inFlight).2.2.2
      (Or.inl (by decide))⟩

end HealthApp
